import Mathlib

/-!
Verification of the watch/poll core of the eco-goinfra resource-builder
library: the condition-driven watch Handle (pkg/internal/watch/handle.go),
the poll-based waiters of the BareMetalHost builder (WaitUntilInStatus,
WaitUntilDeleted, WaitUntilAnnotationExists) and the rootDeviceHints
setters.  Go goroutine runs are embedded as pure functions over an explicit
schedule of stream items; machine durations are natural numbers counted in
seconds (the polling interval of every waiter here is time.Second).
-/

namespace Goinfra

/-- Watch event types, from k8s.io/apimachinery/pkg/watch. -/
inductive EventType
  | added
  | modified
  | deleted
  | bookmark
  | error
  deriving DecidableEq

/-- A watch event: its type together with the runtime object snapshot it
carries.  Objects are identified by a numeric id in this model; for
Error-typed events the object is the payload that apierrors.FromObject
decodes into the wrapped error. -/
structure Event where
  type : EventType
  object : Nat
  deriving DecidableEq

instance : Inhabited Event := ⟨⟨EventType.added, 0⟩⟩

/-- Causes with which a Go context's Err() can resolve. -/
inductive CtxCause
  | canceled
  | deadlineExceeded
  deriving DecidableEq

/-- A condition function: called on every add, update, or delete event and
returning (conditionMet, err).  The Go ConditionFunc also receives the
context, which no condition relevant to the claims inspects, and its error
is modelled by a numeric code (none = nil). -/
abbrev CondFunc := Event → Bool × Option Nat

/-- The terminal errors Handle.start can store, one constructor per
fmt.Errorf site. -/
inductive HandleErr
  | condFuncNil
  | resultsClosed
  | errorEvent (cause : Nat)
  | condFuncErr (cause : Nat)
  | ctxDone (cause : CtxCause)
  deriving DecidableEq

/-- The message of a context error, as context.Canceled / context.DeadlineExceeded. -/
def ctxCauseMessage : CtxCause → String
  | CtxCause.canceled => "context canceled"
  | CtxCause.deadlineExceeded => "context deadline exceeded"

/-- The Go error message stored for each terminal error: the fmt.Errorf
format strings of Handle.start, with the %w verb rendered as the wrapped
error's own message (numeric payloads render as their decimal string). -/
def HandleErr.message : HandleErr → String
  | HandleErr.condFuncNil => "condition function is nil"
  | HandleErr.resultsClosed => "watcher results closed unexpectedly"
  | HandleErr.errorEvent cause => "watcher sent an error event: " ++ toString cause
  | HandleErr.condFuncErr cause => "condition function returned non-nil error: " ++ toString cause
  | HandleErr.ctxDone cause => "handle context done: " ++ ctxCauseMessage cause

/-- One resolution of the select in Handle.start: either the result channel
yields an event (with ok = true), or the context's done channel fires with
the given ctx.Err() cause. -/
inductive StreamItem
  | ev (e : Event)
  | ctxFired (cause : CtxCause)
  deriving DecidableEq

/-- What happens after the listed stream items: the result channel closes
(a receive yields ok = false), or nothing further ever arrives and the
select blocks forever. -/
inductive StreamEnd
  | closed
  | silent
  deriving DecidableEq

/-- Observable actions of the watch goroutine, recorded in execution order. -/
inductive Action
  | condCall (e : Event)
  | stopWatcher
  | closeDone
  deriving DecidableEq

/-- Outcome of the main loop of Handle.start: finished with the stored
error (none = success), or blocked forever in the select. -/
inductive LoopOutcome
  | finished (err : Option HandleErr)
  | blocked
  deriving DecidableEq

/-- Whether the goroutine's loop ever returns. -/
def LoopOutcome.isFinished : LoopOutcome → Bool
  | LoopOutcome.finished _ => true
  | LoopOutcome.blocked => false

/-- The for/select loop of Handle.start, one StreamItem per select
resolution: a closed channel stores "watcher results closed unexpectedly";
an Error-typed event stores the wrapped decoded payload; Bookmark events
are skipped; otherwise the condition is invoked, a non-nil error from it is
wrapped and stored, conditionMet terminates with success, and (false, nil)
continues with the next iteration. -/
def runLoop (cond : CondFunc) : List StreamItem → StreamEnd → LoopOutcome × List Action
  | [], StreamEnd.closed => (LoopOutcome.finished (some HandleErr.resultsClosed), [])
  | [], StreamEnd.silent => (LoopOutcome.blocked, [])
  | StreamItem.ctxFired cause :: _, _ =>
    (LoopOutcome.finished (some (HandleErr.ctxDone cause)), [])
  | StreamItem.ev e :: rest, fin =>
    if e.type = EventType.error then
      (LoopOutcome.finished (some (HandleErr.errorEvent e.object)), [])
    else if e.type = EventType.bookmark then
      runLoop cond rest fin
    else
      match cond e with
      | (_, some ce) =>
        (LoopOutcome.finished (some (HandleErr.condFuncErr ce)), [Action.condCall e])
      | (true, none) => (LoopOutcome.finished none, [Action.condCall e])
      | (false, none) =>
        let r := runLoop cond rest fin
        (r.1, Action.condCall e :: r.2)

/-- Handle.start: registers close(handle.done) and handle.watcher.Stop() as
deferred calls (run in LIFO order whenever the function returns), rejects a
nil condition function, then runs the loop.  If the loop blocks forever the
deferred calls never run. -/
def handleStart : Option CondFunc → List StreamItem → StreamEnd → LoopOutcome × List Action
  | none, _, _ =>
    (LoopOutcome.finished (some HandleErr.condFuncNil), [Action.stopWatcher, Action.closeDone])
  | some c, items, fin =>
    match runLoop c items fin with
    | (LoopOutcome.finished err, acts) =>
      (LoopOutcome.finished err, acts ++ [Action.stopWatcher, Action.closeDone])
    | (LoopOutcome.blocked, acts) => (LoopOutcome.blocked, acts)

/-- Handle.Wait: blocks on the done channel then returns the stored error.
Yields none when the goroutine never finishes (Wait blocks forever), and
some err once it has, where err = none is nil / success. -/
def handleWait : LoopOutcome → Option (Option HandleErr)
  | LoopOutcome.finished err => some err
  | LoopOutcome.blocked => none

/-- The events on which the condition function was invoked, in order. -/
def condCalls (acts : List Action) : List Event :=
  acts.filterMap fun a =>
    match a with
    | Action.condCall e => some e
    | _ => none

/-- The events of a stream that are not Bookmark-typed: exactly those that
reach the condition check or the error-event check of the loop. -/
def relevantEvents (evs : List Event) : List Event :=
  evs.filter fun e => e.type != EventType.bookmark

/-- client-go's toolswatch.ContextWithOptionalTimeout, modelled from its
documented semantics: with a zero timeout the parent context is only made
cancellable (no deadline is derived); with a positive timeout a deadline is
added at that duration.  A context is modelled by when (if ever) its done
channel fires together with the ctx.Err() cause at that point; the parent
is given by the time (if any) at which the caller cancels it. -/
def ContextWithOptionalTimeout (parentCancel : Option Nat) (timeout : Nat) :
    Option (Nat × CtxCause) :=
  if timeout = 0 then
    parentCancel.map fun p => (p, CtxCause.canceled)
  else
    match parentCancel with
    | some p =>
      if p ≤ timeout then some (p, CtxCause.canceled)
      else some (timeout, CtxCause.deadlineExceeded)
    | none => some (timeout, CtxCause.deadlineExceeded)

/-- A watch stream with arrival times: timed events followed by the time at
which the result channel closes (none = it never closes). -/
structure TimedStream where
  events : List (Nat × Event)
  closeTime : Option Nat

/-- Resolves each select of the loop against the context's done time: the
done branch fires once the done channel is ready strictly before the next
stream occurrence; otherwise the stream branch is taken. -/
def selectItems (done : Option (Nat × CtxCause)) :
    List (Nat × Event) → Option Nat → List StreamItem × StreamEnd
  | [], closeTime =>
    match done, closeTime with
    | some dc, some tc =>
      if dc.1 < tc then ([StreamItem.ctxFired dc.2], StreamEnd.silent)
      else ([], StreamEnd.closed)
    | some dc, none => ([StreamItem.ctxFired dc.2], StreamEnd.silent)
    | none, some _ => ([], StreamEnd.closed)
    | none, none => ([], StreamEnd.silent)
  | (t, e) :: rest, closeTime =>
    match done with
    | some dc =>
      if dc.1 < t then ([StreamItem.ctxFired dc.2], StreamEnd.silent)
      else
        let r := selectItems done rest closeTime
        (StreamItem.ev e :: r.1, r.2)
    | none =>
      let r := selectItems done rest closeTime
      (StreamItem.ev e :: r.1, r.2)

/-- NewHandleWithTimeout, given as the run of the goroutine it immediately
spawns: the parent context is wrapped by ContextWithOptionalTimeout and the
loop is driven by the stream resolved against the derived done time. -/
def NewHandleWithTimeout (parentCancel : Option Nat) (timeout : Nat)
    (cond : Option CondFunc) (stream : TimedStream) : LoopOutcome × List Action :=
  let r := selectItems (ContextWithOptionalTimeout parentCancel timeout)
    stream.events stream.closeTime
  handleStart cond r.1 r.2

/-- NewHandle delegates to NewHandleWithTimeout with a zero timeout. -/
def NewHandle (parentCancel : Option Nat) (cond : Option CondFunc) (stream : TimedStream) :
    LoopOutcome × List Action :=
  NewHandleWithTimeout parentCancel 0 cond stream

/-!
Poll-based waiters.  k8s.io/apimachinery's wait.PollUntilContextTimeout is
modelled on a discrete timeline counted in seconds: the derived deadline
context fires at `timeout`, the non-sliding timer ticks at interval,
2*interval, ..., and the condition runs immediately before the first tick
when `immediate` is set.  A tick that does not strictly precede the
deadline loses to the done channel (the loop re-checks ctx.Err() after the
select), so exactly the ticks before `timeout` reach the condition.  The
condition is a function of its invocation index, each invocation fetching
the then-current cluster state.
-/

/-- The polling interval used by every waiter here: time.Second. -/
def second : Nat := 1

/-- How many timer ticks fire strictly before the deadline at `timeout`. -/
def numTicks (interval timeout : Nat) : Nat :=
  if interval = 0 then 0 else (timeout - 1) / interval

/-- How PollUntilContextTimeout can fail: the deadline context's
context.DeadlineExceeded, or the error returned by the condition. -/
inductive PollErr (ε : Type)
  | deadlineExceeded
  | condErr (e : ε)
  deriving DecidableEq

/-- Outcome of a poll: the error (none = success), the time at which the
call returned, and how many times the condition was invoked. -/
structure PollResult (ε : Type) where
  err : Option (PollErr ε)
  elapsed : Nat
  checks : Nat
  deriving DecidableEq

/-- The check loop: the condition runs at consecutive indices, index i at
time checkTime i; fuel counts the checks that happen before the deadline;
once it runs out the deadline context fires at `timeout`.  A non-nil
condition error or conditionMet = true stops the loop at once. -/
def pollFrom {ε : Type} (cond : Nat → Bool × Option ε) (checkTime : Nat → Nat)
    (timeout : Nat) : Nat → Nat → PollResult ε
  | idx, 0 => ⟨some PollErr.deadlineExceeded, timeout, idx⟩
  | idx, fuel + 1 =>
    match cond idx with
    | (_, some e) => ⟨some (PollErr.condErr e), checkTime idx, idx + 1⟩
    | (true, none) => ⟨none, checkTime idx, idx + 1⟩
    | (false, none) => pollFrom cond checkTime timeout (idx + 1) fuel

/-- wait.PollUntilContextTimeout: with immediate set, check i runs at time
i*interval (the first one right away); otherwise check i runs only at tick
i+1, i.e. at time (i+1)*interval. -/
def PollUntilContextTimeout {ε : Type} (interval timeout : Nat) (immediate : Bool)
    (cond : Nat → Bool × Option ε) : PollResult ε :=
  if immediate then
    pollFrom cond (fun i => i * interval) timeout 0 (numTicks interval timeout + 1)
  else
    pollFrom cond (fun i => (i + 1) * interval) timeout 0 (numTicks interval timeout)

/-!
The BareMetalHost builder (pkg/bmh).  Only the state its waiters and
rootDeviceHints setters read or write is embedded; the cluster is given to
each waiter as the sequence of results its successive builder.Get() calls
would observe.
-/

/-- metal3's RootDeviceHints, with the fields the WithRootDevice* setters
assign; the Go zero value of a field is "" / 0 / nil. -/
structure RootDeviceHints where
  deviceName : String
  hctl : String
  model : String
  vendor : String
  serialNumber : String
  minSizeGigabytes : Int
  wwn : String
  wwnWithExtension : String
  wwnVendorExtension : String
  rotational : Option Bool
  deriving DecidableEq

/-- The zero value &bmhv1alpha1.RootDeviceHints{} assigned when the
definition carries no hints yet. -/
def emptyRootDeviceHints : RootDeviceHints :=
  ⟨"", "", "", "", "", 0, "", "", "", none⟩

/-- The spec fields of a BareMetalHost the claims touch. -/
structure BareMetalHostSpec where
  rootDeviceHints : Option RootDeviceHints
  deriving DecidableEq

/-- Status.Provisioning of a BareMetalHost: the ProvisioningState string. -/
structure BmhProvisionStatus where
  state : String
  deriving DecidableEq

/-- The status fields of a BareMetalHost the claims touch. -/
structure BareMetalHostStatus where
  provisioning : BmhProvisionStatus
  deriving DecidableEq

/-- The slice of a BareMetalHost object the claims touch; the metadata
annotations map is an association list. -/
structure BareMetalHost where
  annotations : List (String × String)
  spec : BareMetalHostSpec
  status : BareMetalHostStatus
  deriving DecidableEq

/-- Result of one builder.Get() call against the cluster: the object, a
not-found error (k8serrors.IsNotFound holds), or any other error, modelled
by a numeric code. -/
inductive GetResult
  | found (obj : BareMetalHost)
  | notFound
  | otherErr (e : Nat)
  deriving DecidableEq

/-- The builder state the waiters and setters depend on, embedded via
common.EmbeddableBuilder: whether the apiClient is nil, the Definition
object (nil or present) and the stored error message. -/
structure BmhBuilder where
  apiClientNil : Bool
  definition : Option BareMetalHost
  errorMsg : Option String
  deriving DecidableEq

/-- The errors common.Validate can report. -/
inductive ValidateErr
  | builderNil
  | definitionNil
  | apiClientNil
  | builderErr (msg : String)
  deriving DecidableEq

/-- Modelled from the spec: common.Validate (pkg/internal/common, whose
implementation is not under src/) checks, per its unit tests in src, that
the builder is non-nil, its definition is non-nil, its apiClient is non-nil
and that the builder carries no stored error. -/
def Validate (builder : Option BmhBuilder) : Option ValidateErr :=
  match builder with
  | none => some ValidateErr.builderNil
  | some b =>
    if b.definition.isNone then some ValidateErr.definitionNil
    else if b.apiClientNil then some ValidateErr.apiClientNil
    else
      match b.errorMsg with
      | some msg => some (ValidateErr.builderErr msg)
      | none => none

/-- BmhBuilder.validate: wraps common.Validate, returning false with the
error when the builder is not properly initialized. -/
def BmhBuilder.validate (builder : BmhBuilder) : Bool × Option ValidateErr :=
  match Validate (some builder) with
  | some e => (false, some e)
  | none => (true, none)

/-- common.(*EmbeddableBuilder).SetError: records an error on the builder. -/
def BmhBuilder.setError (builder : BmhBuilder) (msg : String) : BmhBuilder :=
  { builder with errorMsg := some msg }

/-- The errors a BareMetalHost waiter surfaces: an invalid builder, the
empty-key rejection of WaitUntilAnnotationExists, its missing-object
rejection, the poll deadline, or a Get error returned by the poll
condition. -/
inductive BmhWaitErr
  | invalidBuilder (e : ValidateErr)
  | keyEmpty
  | doesNotExist
  | deadline
  | fetchFailed (e : Nat)
  deriving DecidableEq

/-- Outcome of a waiter call: the returned error (none = nil), the poll
time consumed and the number of condition checks performed. -/
structure WaitResult where
  err : Option BmhWaitErr
  elapsed : Nat
  checks : Nat
  deriving DecidableEq

/-- Repackage a poll outcome as the waiter's returned error. -/
def toWaitResult (r : PollResult Nat) : WaitResult :=
  match r.err with
  | none => ⟨none, r.elapsed, r.checks⟩
  | some PollErr.deadlineExceeded => ⟨some BmhWaitErr.deadline, r.elapsed, r.checks⟩
  | some (PollErr.condErr e) => ⟨some (BmhWaitErr.fetchFailed e), r.elapsed, r.checks⟩

/-- The poll condition of BmhBuilder.WaitUntilInStatus: refetch the object;
on any Get error return (false, nil) and keep polling; on success
terminate exactly when Status.Provisioning.State equals the target. -/
def waitUntilInStatusCond (get : Nat → GetResult) (status : String) (i : Nat) :
    Bool × Option Nat :=
  match get i with
  | GetResult.found obj => (obj.status.provisioning.state == status, none)
  | GetResult.notFound => (false, none)
  | GetResult.otherErr _ => (false, none)

/-- BmhBuilder.WaitUntilInStatus: validates the builder, then polls every
second up to timeout with an immediate first check. -/
def BmhBuilder.WaitUntilInStatus (builder : BmhBuilder) (get : Nat → GetResult)
    (status : String) (timeout : Nat) : WaitResult :=
  match builder.validate with
  | (false, err) => ⟨err.map BmhWaitErr.invalidBuilder, 0, 0⟩
  | (true, _) =>
    toWaitResult (PollUntilContextTimeout second timeout true (waitUntilInStatusCond get status))

/-- The poll condition of BmhBuilder.WaitUntilDeleted: a Get that succeeds
means still present (continue); a not-found error means gone (done); any
other Get error is returned from the condition (fatal). -/
def waitUntilDeletedCond (get : Nat → GetResult) (i : Nat) : Bool × Option Nat :=
  match get i with
  | GetResult.found _ => (false, none)
  | GetResult.notFound => (true, none)
  | GetResult.otherErr e => (false, some e)

/-- BmhBuilder.WaitUntilDeleted: validates the builder, then polls every
second up to timeout without an immediate first check. -/
def BmhBuilder.WaitUntilDeleted (builder : BmhBuilder) (get : Nat → GetResult)
    (timeout : Nat) : WaitResult :=
  match builder.validate with
  | (false, err) => ⟨err.map BmhWaitErr.invalidBuilder, 0, 0⟩
  | (true, _) =>
    toWaitResult (PollUntilContextTimeout second timeout false (waitUntilDeletedCond get))

/-- Modelled from the spec: builder.Exists() (common.Exists, whose
implementation is not under src/) fetches the object and reports whether
the fetch succeeded.  It performs the first Get; the poll checks consume
the following ones. -/
def bmhExists (get : Nat → GetResult) : Bool :=
  match get 0 with
  | GetResult.found _ => true
  | _ => false

/-- The poll condition of BmhBuilder.WaitUntilAnnotationExists: refetch;
on any Get error return (false, nil) and keep polling; on success
terminate exactly when the annotations map contains the key. -/
def waitAnnotationCond (get : Nat → GetResult) (key : String) (i : Nat) :
    Bool × Option Nat :=
  match get i with
  | GetResult.found obj => ((obj.annotations.lookup key).isSome, none)
  | GetResult.notFound => (false, none)
  | GetResult.otherErr _ => (false, none)

/-- BmhBuilder.WaitUntilAnnotationExists: validates the builder, rejects an
empty key, requires the object to exist, then polls every second up to
timeout with an immediate first check (the Go method returns the builder on
success and nil on failure alongside this error). -/
def BmhBuilder.WaitUntilAnnotationExists (builder : BmhBuilder) (get : Nat → GetResult)
    (key : String) (timeout : Nat) : WaitResult :=
  match builder.validate with
  | (false, err) => ⟨err.map BmhWaitErr.invalidBuilder, 0, 0⟩
  | (true, _) =>
    if key = "" then ⟨some BmhWaitErr.keyEmpty, 0, 0⟩
    else if bmhExists get then
      toWaitResult (PollUntilContextTimeout second timeout true
        (waitAnnotationCond (fun j => get (j + 1)) key))
    else ⟨some BmhWaitErr.doesNotExist, 0, 0⟩

/-- BmhBuilder.WithRootDeviceVendor: validates the builder, rejects an
empty vendor, initializes Spec.RootDeviceHints when nil, and stores the
value — into the Model field, exactly as the source does.  (The
definition-nil branch is unreachable once validate has passed.) -/
def BmhBuilder.WithRootDeviceVendor (builder : BmhBuilder) (vendor : String) : BmhBuilder :=
  match builder.validate with
  | (false, _) => builder
  | (true, _) =>
    if vendor = "" then
      builder.setError "the baremetalhost rootDeviceHint vendor cannot be empty"
    else
      match builder.definition with
      | none => builder
      | some defn =>
        let hints := defn.spec.rootDeviceHints.getD emptyRootDeviceHints
        { builder with
          definition := some { defn with
            spec := { defn.spec with
              rootDeviceHints := some { hints with model := vendor } } } }

/-- A concrete BareMetalHost fixture: one annotated object in the
provisioned state, with no root device hints. -/
def bmhObjProvisioned : BareMetalHost :=
  { annotations := [("bmac.agent-install.openshift.io/role", "master")],
    spec := { rootDeviceHints := none },
    status := { provisioning := { state := "provisioned" } } }

/-- A concrete valid builder fixture. -/
def bmhBuilderValid : BmhBuilder :=
  { apiClientNil := false, definition := some bmhObjProvisioned, errorMsg := none }

/-- A cluster whose Get always returns the provisioned fixture. -/
def getAlwaysProvisioned : Nat → GetResult := fun _ => GetResult.found bmhObjProvisioned

/-- A cluster whose first Get succeeds and whose later Gets fail with a
non-not-found error. -/
def getFoundThenErr : Nat → GetResult
  | 0 => GetResult.found bmhObjProvisioned
  | _ + 1 => GetResult.otherErr 7

/-- Every action the loop itself records is a condition invocation, on an
event that is neither an error event nor a bookmark. -/
theorem runLoop_acts_are_condCalls (cond : CondFunc) :
    ∀ (items : List StreamItem) (fin : StreamEnd) (a : Action),
      a ∈ (runLoop cond items fin).2 →
        ∃ e, a = Action.condCall e ∧
          e.type ≠ EventType.error ∧ e.type ≠ EventType.bookmark := by
  intro items
  induction items with
  | nil =>
    intro fin a h
    cases fin <;> simp [runLoop] at h
  | cons hd tl ih =>
    intro fin a h
    cases hd with
    | ctxFired cause => simp [runLoop] at h
    | ev e =>
      by_cases herr : e.type = EventType.error
      · simp [runLoop, herr] at h
      · by_cases hbm : e.type = EventType.bookmark
        · rw [runLoop, if_neg herr, if_pos hbm] at h
          exact ih fin a h
        · rw [runLoop, if_neg herr, if_neg hbm] at h
          rcases hc : cond e with ⟨met, errc⟩
          rw [hc] at h
          cases errc with
          | some ce =>
            simp at h
            exact ⟨e, h, herr, hbm⟩
          | none =>
            cases met with
            | true =>
              simp at h
              exact ⟨e, h, herr, hbm⟩
            | false =>
              simp at h
              rcases h with h | h
              · exact ⟨e, h, herr, hbm⟩
              · exact ih fin a h

/-- The loop records no watcher.Stop call. -/
theorem runLoop_count_stop (cond : CondFunc) (items : List StreamItem) (fin : StreamEnd) :
    (runLoop cond items fin).2.count Action.stopWatcher = 0 := by
  rw [List.count_eq_zero]
  intro hmem
  rcases runLoop_acts_are_condCalls cond items fin _ hmem with ⟨e, he, -, -⟩
  cases he

/-- The loop records no close of the done channel. -/
theorem runLoop_count_closeDone (cond : CondFunc) (items : List StreamItem) (fin : StreamEnd) :
    (runLoop cond items fin).2.count Action.closeDone = 0 := by
  rw [List.count_eq_zero]
  intro hmem
  rcases runLoop_acts_are_condCalls cond items fin _ hmem with ⟨e, he, -, -⟩
  cases he

/-- Processing a stream of events is the same as processing it with its
Bookmark events removed: the loop skips them without touching anything. -/
theorem runLoop_filter_bookmarks (cond : CondFunc) :
    ∀ (evs : List Event) (fin : StreamEnd),
      runLoop cond (evs.map StreamItem.ev) fin
        = runLoop cond ((relevantEvents evs).map StreamItem.ev) fin := by
  intro evs
  induction evs with
  | nil => intro fin; rfl
  | cons e tl ih =>
    intro fin
    by_cases hbm : e.type = EventType.bookmark
    · have herr : ¬e.type = EventType.error := by rw [hbm]; intro h; cases h
      have hrel : relevantEvents (e :: tl) = relevantEvents tl := by
        simp [relevantEvents, hbm]
      rw [hrel, List.map_cons, runLoop, if_neg herr, if_pos hbm]
      exact ih fin
    · have hrel : relevantEvents (e :: tl) = e :: relevantEvents tl := by
        simp [relevantEvents, hbm]
      rw [hrel, List.map_cons, List.map_cons]
      by_cases herr : e.type = EventType.error
      · rw [runLoop, runLoop, if_pos herr, if_pos herr]
      · rw [runLoop, runLoop, if_neg herr, if_neg herr, if_neg hbm, if_neg hbm]
        rcases hc : cond e with ⟨met, errc⟩
        cases met <;> cases errc <;> first | rfl | (simp only []; rw [ih fin])

/-- A prefix of non-error events on which the condition keeps answering
(false, nil) only contributes its condition invocations: the loop's outcome
is decided by whatever comes after the prefix. -/
theorem runLoop_skip_false_head (cond : CondFunc) :
    ∀ (evs : List Event) (tailItems : List StreamItem) (fin : StreamEnd),
      (∀ e ∈ evs, e.type ≠ EventType.error) →
      (∀ e ∈ relevantEvents evs, cond e = (false, none)) →
      runLoop cond (evs.map StreamItem.ev ++ tailItems) fin
        = ((runLoop cond tailItems fin).1,
           (relevantEvents evs).map Action.condCall ++ (runLoop cond tailItems fin).2) := by
  intro evs
  induction evs with
  | nil =>
    intro tailItems fin hnoerr hfalse
    simp [relevantEvents]
  | cons e tl ih =>
    intro tailItems fin hnoerr hfalse
    have herr : e.type ≠ EventType.error := hnoerr e (List.mem_cons_self e tl)
    have hnoerr' : ∀ x ∈ tl, x.type ≠ EventType.error :=
      fun x hx => hnoerr x (List.mem_cons_of_mem e hx)
    by_cases hbm : e.type = EventType.bookmark
    · have hrel : relevantEvents (e :: tl) = relevantEvents tl := by
        simp [relevantEvents, hbm]
      have hfalse' : ∀ x ∈ relevantEvents tl, cond x = (false, none) := by
        intro x hx; exact hfalse x (by rw [hrel]; exact hx)
      rw [hrel, List.map_cons, List.cons_append, runLoop, if_neg herr, if_pos hbm]
      exact ih tailItems fin hnoerr' hfalse'
    · have hrel : relevantEvents (e :: tl) = e :: relevantEvents tl := by
        simp [relevantEvents, hbm]
      have hce : cond e = (false, none) := by
        apply hfalse
        rw [hrel]; exact List.mem_cons_self e _
      have hfalse' : ∀ x ∈ relevantEvents tl, cond x = (false, none) := by
        intro x hx
        exact hfalse x (by rw [hrel]; exact List.mem_cons_of_mem e hx)
      rw [hrel, List.map_cons, List.cons_append, runLoop, if_neg herr, if_neg hbm, hce]
      simp only []
      rw [ih tailItems fin hnoerr' hfalse']
      simp

/-- condCalls distributes over append. -/
theorem condCalls_append (xs ys : List Action) :
    condCalls (xs ++ ys) = condCalls xs ++ condCalls ys := by
  simp [condCalls]

/-- condCalls recovers the event list from a pure run of invocations. -/
theorem condCalls_map (xs : List Event) :
    condCalls (xs.map Action.condCall) = xs := by
  induction xs with
  | nil => rfl
  | cons h t ih => simpa [condCalls] using ih

/-- C8: for every Handle constructed with a nil condition predicate, Wait
returns the configuration error "condition function is nil", and no event
is ever read from the stream: the run is the same for every stream content
and stream end, with no condition invocation recorded. -/
theorem handle_nil_condition (items : List StreamItem) (fin : StreamEnd) :
    handleStart none items fin
      = (LoopOutcome.finished (some HandleErr.condFuncNil),
         [Action.stopWatcher, Action.closeDone]) ∧
    handleWait (handleStart none items fin).1 = some (some HandleErr.condFuncNil) ∧
    condCalls (handleStart none items fin).2 = [] ∧
    HandleErr.condFuncNil.message = "condition function is nil" :=
  ⟨rfl, rfl, rfl, rfl⟩

/-- C4: on every exit path of the background task the watcher's Stop and the
done-channel close are each recorded exactly once (and if the task never
exits, neither happens); once the task has finished, Wait always returns
the single stored result. -/
theorem handle_stop_once_wait_stable (cond : Option CondFunc) (items : List StreamItem)
    (fin : StreamEnd) :
    ((handleStart cond items fin).2.count Action.stopWatcher
        = if (handleStart cond items fin).1.isFinished then 1 else 0) ∧
    ((handleStart cond items fin).2.count Action.closeDone
        = if (handleStart cond items fin).1.isFinished then 1 else 0) ∧
    (∀ err : Option HandleErr, handleWait (LoopOutcome.finished err) = some err) := by
  refine ⟨?_, ?_, fun err => rfl⟩ <;>
  · cases cond with
    | none => rfl
    | some c =>
      rcases hr : runLoop c items fin with ⟨out, acts⟩
      have hstop := runLoop_count_stop c items fin
      have hclose := runLoop_count_closeDone c items fin
      rw [hr] at hstop hclose
      cases out with
      | finished err =>
        simp [handleStart, hr, LoopOutcome.isFinished, List.count_append, hstop, hclose]
      | blocked =>
        simp [handleStart, hr, LoopOutcome.isFinished, hstop, hclose]

/-- C5: Bookmark events never affect a Handle's outcome: a stream with its
Bookmark events removed produces the identical run (same stored result and
same recorded condition invocations), and the condition is never invoked on
a Bookmark event. -/
theorem handle_bookmarks_no_effect (cond : CondFunc) (evs : List Event) (fin : StreamEnd) :
    handleStart (some cond) (evs.map StreamItem.ev) fin
      = handleStart (some cond) ((relevantEvents evs).map StreamItem.ev) fin ∧
    (∀ e : Event,
      Action.condCall e ∈ (handleStart (some cond) (evs.map StreamItem.ev) fin).2 →
        e.type ≠ EventType.bookmark) := by
  constructor
  · simp only [handleStart]
    rw [runLoop_filter_bookmarks]
  · intro e hmem
    simp only [handleStart] at hmem
    rcases hr : runLoop cond (evs.map StreamItem.ev) fin with ⟨out, acts⟩
    rw [hr] at hmem
    have hacts : Action.condCall e ∈ acts := by
      cases out with
      | finished err =>
        simp only [] at hmem
        rcases List.mem_append.mp hmem with h | h
        · exact h
        · simp at h
      | blocked => exact hmem
    rcases runLoop_acts_are_condCalls cond (evs.map StreamItem.ev) fin _ (by rw [hr]; exact hacts)
      with ⟨e', he', -, hbm'⟩
    cases he'
    exact hbm'

/-- Witness for C5 at a concrete run: the stream [Bookmark, Added] with an
always-true condition; the single recorded condition call is on the Added
event, which is not a Bookmark. -/
theorem handle_bookmarks_no_effect_witness :
    (Event.mk EventType.added 1).type ≠ EventType.bookmark :=
  (handle_bookmarks_no_effect (fun _ => (true, none))
      [⟨EventType.bookmark, 0⟩, ⟨EventType.added, 1⟩] StreamEnd.closed).2
    ⟨EventType.added, 1⟩ (by decide)

/-- C3: if, among the delivered events, the condition answers (false, nil)
on every non-bookmark, non-error event before one on which it answers
(true, nil), then Wait returns nil and the condition was invoked exactly on
those events, in arrival order — pre.length + 1 invocations in total. -/
theorem handle_condition_met_kth (cond : CondFunc) (evs : List Event) (fin : StreamEnd)
    (pre : List Event) (etrue : Event) (rest : List Event)
    (hsplit : relevantEvents evs = pre ++ etrue :: rest)
    (hnoerr : ∀ e ∈ evs, e.type ≠ EventType.error)
    (hfalse : ∀ e ∈ pre, cond e = (false, none))
    (htrue : cond etrue = (true, none)) :
    handleWait (handleStart (some cond) (evs.map StreamItem.ev) fin).1 = some none ∧
    condCalls (handleStart (some cond) (evs.map StreamItem.ev) fin).2 = pre ++ [etrue] ∧
    (condCalls (handleStart (some cond) (evs.map StreamItem.ev) fin).2).length
      = pre.length + 1 := by
  have hpre_mem : ∀ e ∈ pre, e ∈ relevantEvents evs := by
    intro e he; rw [hsplit]; exact List.mem_append_left _ he
  have htrue_mem : etrue ∈ relevantEvents evs := by
    rw [hsplit]; exact List.mem_append_right _ (List.mem_cons_self _ _)
  have hrel_sub : ∀ e ∈ relevantEvents evs, e ∈ evs := fun e he => List.mem_of_mem_filter he
  have hrel_bm : ∀ e ∈ relevantEvents evs, e.type ≠ EventType.bookmark := by
    intro e he
    simpa using List.of_mem_filter he
  have hpre_noerr : ∀ e ∈ pre, e.type ≠ EventType.error :=
    fun e he => hnoerr e (hrel_sub e (hpre_mem e he))
  have htrue_noerr : etrue.type ≠ EventType.error := hnoerr _ (hrel_sub _ htrue_mem)
  have htrue_nobm : etrue.type ≠ EventType.bookmark := hrel_bm _ htrue_mem
  have hpre_rel : relevantEvents pre = pre := by
    apply List.filter_eq_self.mpr
    intro e he
    simpa using hrel_bm e (hpre_mem e he)
  have hrun : runLoop cond (evs.map StreamItem.ev) fin
      = (LoopOutcome.finished none, (pre ++ [etrue]).map Action.condCall) := by
    rw [runLoop_filter_bookmarks, hsplit, List.map_append,
      runLoop_skip_false_head cond pre ((etrue :: rest).map StreamItem.ev) fin hpre_noerr
        (by rw [hpre_rel]; exact hfalse),
      List.map_cons, runLoop, if_neg htrue_noerr, if_neg htrue_nobm, htrue]
    simp [hpre_rel]
  have hcalls : condCalls (handleStart (some cond) (evs.map StreamItem.ev) fin).2
      = pre ++ [etrue] := by
    simp only [handleStart, hrun]
    rw [condCalls_append, condCalls_map]
    simp [condCalls]
  refine ⟨?_, hcalls, ?_⟩
  · simp only [handleStart, hrun]
    rfl
  · rw [hcalls]
    simp

/-- Witness for C3 at the spec's concrete scenario: events [Added, Modified],
condition true exactly on Modified; Wait returns nil after exactly two
invocations. -/
theorem handle_condition_met_kth_witness :
    handleWait (handleStart
        (some fun e => (decide (e.type = EventType.modified), none))
        ([⟨EventType.added, 0⟩, ⟨EventType.modified, 1⟩].map StreamItem.ev)
        StreamEnd.silent).1 = some none :=
  (handle_condition_met_kth (fun e => (decide (e.type = EventType.modified), none))
    [⟨EventType.added, 0⟩, ⟨EventType.modified, 1⟩] StreamEnd.silent
    [⟨EventType.added, 0⟩] ⟨EventType.modified, 1⟩ []
    (by decide) (by decide) (by decide) (by decide)).1

/-- C7: closure of the result channel before a terminal condition makes Wait
return "watcher results closed unexpectedly", and an Error-typed event
makes it return the decoded payload wrapped as "watcher sent an error
event: ..." — both are terminal. -/
theorem handle_stream_protocol_errors (cond : CondFunc) (evs : List Event) (fin : StreamEnd)
    (hnoerr : ∀ e ∈ evs, e.type ≠ EventType.error)
    (hfalse : ∀ e ∈ relevantEvents evs, cond e = (false, none)) :
    (handleWait (handleStart (some cond) (evs.map StreamItem.ev) StreamEnd.closed).1
        = some (some HandleErr.resultsClosed) ∧
      HandleErr.resultsClosed.message = "watcher results closed unexpectedly") ∧
    (∀ eerr : Event, eerr.type = EventType.error →
      handleWait (handleStart (some cond) ((evs ++ [eerr]).map StreamItem.ev) fin).1
          = some (some (HandleErr.errorEvent eerr.object)) ∧
      (HandleErr.errorEvent eerr.object).message
          = "watcher sent an error event: " ++ toString eerr.object) := by
  constructor
  · constructor
    · have h1 := runLoop_skip_false_head cond evs [] StreamEnd.closed hnoerr hfalse
      rw [List.append_nil] at h1
      simp only [handleStart, h1]
      rfl
    · rfl
  · intro eerr htype
    constructor
    · have h2 := runLoop_skip_false_head cond evs [StreamItem.ev eerr] fin hnoerr hfalse
      have h3 : runLoop cond [StreamItem.ev eerr] fin
          = (LoopOutcome.finished (some (HandleErr.errorEvent eerr.object)), []) := by
        rw [runLoop, if_pos htype]
      rw [h3] at h2
      simp only [List.map_append, List.map_cons, List.map_nil, handleStart, h2]
      rfl
    · rfl

/-- Witness for C7 at a concrete run: an empty stream that closes at once. -/
theorem handle_stream_protocol_errors_witness :
    handleWait (handleStart (some fun _ => ((false : Bool), (none : Option Nat)))
        (([] : List Event).map StreamItem.ev) StreamEnd.closed).1
      = some (some HandleErr.resultsClosed) :=
  ((handle_stream_protocol_errors (fun _ => (false, none)) [] StreamEnd.silent
    (by decide) (by decide)).1).1

/-- Without a context done time every stream event is delivered and the run
ends by the stream itself (closure, or blocking forever). -/
theorem selectItems_none :
    ∀ (evs : List (Nat × Event)) (closeTime : Option Nat),
      selectItems none evs closeTime
        = (evs.map (fun te => StreamItem.ev te.2),
           if closeTime.isSome then StreamEnd.closed else StreamEnd.silent) := by
  intro evs
  induction evs with
  | nil => intro ct; cases ct <;> rfl
  | cons te tl ih =>
    intro ct
    rcases te with ⟨t, e⟩
    simp only [selectItems, List.map_cons, ih ct]

/-- C9: NewHandle behaves identically to NewHandleWithTimeout with a zero
timeout; a zero timeout derives no deadline — the done channel fires only
at an explicit parent cancellation, with cause canceled, never with a
derived deadline — and with no parent cancellation every event is delivered
and the run terminates only through the stream itself. -/
theorem newhandle_zero_timeout (parentCancel : Option Nat) (cond : Option CondFunc)
    (stream : TimedStream) :
    NewHandle parentCancel cond stream = NewHandleWithTimeout parentCancel 0 cond stream ∧
    ContextWithOptionalTimeout parentCancel 0
        = parentCancel.map (fun p => (p, CtxCause.canceled)) ∧
    selectItems (ContextWithOptionalTimeout none 0) stream.events stream.closeTime
        = (stream.events.map (fun te => StreamItem.ev te.2),
           if stream.closeTime.isSome then StreamEnd.closed else StreamEnd.silent) := by
  refine ⟨rfl, by simp [ContextWithOptionalTimeout], ?_⟩
  have h : ContextWithOptionalTimeout none 0 = none := rfl
  rw [h, selectItems_none]

/-- A condition that keeps answering (false, nil) drives the poll into the
deadline, consuming all its checks. -/
theorem pollFrom_all_false {ε : Type} (cond : Nat → Bool × Option ε) (ct : Nat → Nat)
    (T : Nat) :
    ∀ (fuel idx : Nat), (∀ i, i < fuel → cond (idx + i) = (false, none)) →
      pollFrom cond ct T idx fuel = ⟨some PollErr.deadlineExceeded, T, idx + fuel⟩ := by
  intro fuel
  induction fuel with
  | zero => intro idx h; simp [pollFrom]
  | succ n ih =>
    intro idx h
    have h0 : cond idx = (false, none) := by simpa using h 0 (Nat.succ_pos n)
    have hs : ∀ i, i < n → cond (idx + 1 + i) = (false, none) := by
      intro i hi
      have := h (i + 1) (Nat.succ_lt_succ hi)
      rwa [show idx + (i + 1) = idx + 1 + i from by omega] at this
    simp only [pollFrom, h0]
    rw [show idx + (n + 1) = idx + 1 + n from by omega]
    exact ih (idx + 1) hs

/-- If the condition never returns an error, the poll ends in success or in
the deadline — never in a condition error. -/
theorem pollFrom_no_conderr {ε : Type} (cond : Nat → Bool × Option ε) (ct : Nat → Nat)
    (T : Nat) (h : ∀ i, (cond i).2 = none) :
    ∀ (fuel idx : Nat),
      (pollFrom cond ct T idx fuel).err = none ∨
      (pollFrom cond ct T idx fuel).err = some PollErr.deadlineExceeded := by
  intro fuel
  induction fuel with
  | zero => intro idx; right; rfl
  | succ n ih =>
    intro idx
    rcases hc : cond idx with ⟨met, errc⟩
    have hen : errc = none := by
      have := h idx
      rw [hc] at this
      exact this
    subst hen
    cases met with
    | false =>
      simp only [pollFrom, hc]
      exact ih (idx + 1)
    | true =>
      left
      simp [pollFrom, hc]

/-- A run of j checks answering (false, nil) just advances the poll by j. -/
theorem pollFrom_skip_false {ε : Type} (cond : Nat → Bool × Option ε) (ct : Nat → Nat)
    (T : Nat) :
    ∀ (j idx fuel : Nat), (∀ i, i < j → cond (idx + i) = (false, none)) → j ≤ fuel →
      pollFrom cond ct T idx fuel = pollFrom cond ct T (idx + j) (fuel - j) := by
  intro j
  induction j with
  | zero => intro idx fuel h hle; simp
  | succ n ih =>
    intro idx fuel h hle
    rcases fuel with _ | m
    · omega
    · have h0 : cond idx = (false, none) := by simpa using h 0 (Nat.succ_pos n)
      have hs : ∀ i, i < n → cond (idx + 1 + i) = (false, none) := by
        intro i hi
        have := h (i + 1) (Nat.succ_lt_succ hi)
        rwa [show idx + (i + 1) = idx + 1 + i from by omega] at this
      simp only [pollFrom, h0]
      rw [ih (idx + 1) m hs (Nat.le_of_succ_le_succ hle),
        show idx + 1 + n = idx + (n + 1) from by omega,
        show m - n = m + 1 - (n + 1) from by omega]

/-- A builder that common.Validate accepts makes validate answer (true, nil). -/
theorem validate_of_valid (builder : BmhBuilder) (h : Validate (some builder) = none) :
    builder.validate = (true, none) := by
  simp [BmhBuilder.validate, h]

/-- A builder that common.Validate accepts carries no stored error. -/
theorem errorMsg_of_valid (builder : BmhBuilder) (h : Validate (some builder) = none) :
    builder.errorMsg = none := by
  rcases builder with ⟨api, defn, msg⟩
  cases defn <;> cases api <;> cases msg <;> first | rfl | simp [Validate] at h

/-- The waiter's error is the poll error, reclassified constructor by
constructor. -/
theorem toWaitResult_err (r : PollResult Nat) :
    (toWaitResult r).err
      = r.err.map (fun pe =>
          match pe with
          | PollErr.deadlineExceeded => BmhWaitErr.deadline
          | PollErr.condErr e => BmhWaitErr.fetchFailed e) := by
  rcases r with ⟨err, el, ch⟩
  rcases err with _ | pe
  · rfl
  · rcases pe <;> rfl

/-- C1 counterexample: the deletion wait performs no immediate check.  With
a valid builder, every fetch already answering not-found and a 5-second
timeout, WaitUntilDeleted succeeds only at the first tick: a full
one-second polling interval is consumed even though the termination
predicate held at the first check, refuting "returns success without
consuming the full polling interval" for the deletion waiter. -/
theorem waituntildeleted_consumes_interval :
    BmhBuilder.WaitUntilDeleted bmhBuilderValid (fun _ => GetResult.notFound) 5
      = ⟨none, second, 1⟩ ∧
    second ≤ (BmhBuilder.WaitUntilDeleted bmhBuilderValid
      (fun _ => GetResult.notFound) 5).elapsed ∧
    0 < second := by
  refine ⟨rfl, ?_, ?_⟩ <;> decide

/-- C1 (amended): the status and annotation-exists waits check immediately —
when the termination predicate already holds at the first fetch they return
success with no polling time consumed — while the deletion wait performs
its first check only after one full polling interval, so an already-absent
object still costs exactly one interval (whenever the timeout allows a
first tick at all). -/
theorem poll_waiters_first_check (builder : BmhBuilder) (get : Nat → GetResult)
    (obj : BareMetalHost) (status key : String) (timeout : Nat)
    (hvalid : Validate (some builder) = none) :
    (get 0 = GetResult.found obj → obj.status.provisioning.state = status →
      builder.WaitUntilInStatus get status timeout = ⟨none, 0, 1⟩) ∧
    (key ≠ "" → get 0 = GetResult.found obj → get 1 = GetResult.found obj →
      (obj.annotations.lookup key).isSome = true →
      builder.WaitUntilAnnotationExists get key timeout = ⟨none, 0, 1⟩) ∧
    (get 0 = GetResult.notFound → second < timeout →
      builder.WaitUntilDeleted get timeout = ⟨none, second, 1⟩) := by
  have hvb := validate_of_valid builder hvalid
  refine ⟨?_, ?_, ?_⟩
  · intro h0 hst
    have hc : waitUntilInStatusCond get status 0 = (true, none) := by
      simp [waitUntilInStatusCond, h0, hst]
    simp [BmhBuilder.WaitUntilInStatus, hvb, PollUntilContextTimeout, pollFrom, hc,
      toWaitResult]
  · intro hk h0 h1 hlook
    have hc : waitAnnotationCond (fun j => get (j + 1)) key 0 = (true, none) := by
      simp [waitAnnotationCond, h1, hlook]
    have hex : bmhExists get = true := by simp [bmhExists, h0]
    simp [BmhBuilder.WaitUntilAnnotationExists, hvb, hk, hex, PollUntilContextTimeout,
      pollFrom, hc, toWaitResult]
  · intro h0 hlt
    have hc : waitUntilDeletedCond get 0 = (true, none) := by
      simp [waitUntilDeletedCond, h0]
    have hlt' : 1 < timeout := hlt
    have hnt : numTicks second timeout = (timeout - 2) + 1 := by
      simp [numTicks, second]
      omega
    have hw : builder.WaitUntilDeleted get timeout
        = toWaitResult (pollFrom (waitUntilDeletedCond get) (fun i => (i + 1) * second)
            timeout 0 (numTicks second timeout)) := by
      simp [BmhBuilder.WaitUntilDeleted, hvb, PollUntilContextTimeout]
    rw [hw, hnt]
    simp [pollFrom, hc, toWaitResult, second]

/-- Witness for the amended C1 at a concrete input: the object already in
the target provisioning state at the first fetch. -/
theorem poll_waiters_first_check_witness :
    BmhBuilder.WaitUntilInStatus bmhBuilderValid getAlwaysProvisioned "provisioned" 5
      = ⟨none, 0, 1⟩ :=
  (poll_waiters_first_check bmhBuilderValid getAlwaysProvisioned bmhObjProvisioned
    "provisioned" "bmac.agent-install.openshift.io/role" 5 rfl).1 rfl rfl

/-- C2: during a deletion wait each fetch is classified exactly three ways —
a not-found error makes the condition answer (true, nil) (success), any
other fetch error is returned from the condition (fatal), and a successful
fetch answers (false, nil) (keep polling) — and accordingly the whole wait,
after j fetches that still see the object, terminates at check j + 1 with
that error (not retried) or with success. -/
theorem waituntildeleted_fetch_classified (builder : BmhBuilder) (get : Nat → GetResult)
    (timeout : Nat) (hvalid : Validate (some builder) = none) :
    (∀ i, get i = GetResult.notFound → waitUntilDeletedCond get i = (true, none)) ∧
    (∀ i e, get i = GetResult.otherErr e → waitUntilDeletedCond get i = (false, some e)) ∧
    (∀ i obj, get i = GetResult.found obj → waitUntilDeletedCond get i = (false, none)) ∧
    (∀ j, (∀ i, i < j → ∃ obj, get i = GetResult.found obj) →
      j < numTicks second timeout →
      (∀ e, get j = GetResult.otherErr e →
        builder.WaitUntilDeleted get timeout
          = ⟨some (BmhWaitErr.fetchFailed e), (j + 1) * second, j + 1⟩) ∧
      (get j = GetResult.notFound →
        builder.WaitUntilDeleted get timeout = ⟨none, (j + 1) * second, j + 1⟩)) := by
  have hvb := validate_of_valid builder hvalid
  refine ⟨?_, ?_, ?_, ?_⟩
  · intro i h; simp [waitUntilDeletedCond, h]
  · intro i e h; simp [waitUntilDeletedCond, h]
  · intro i obj h; simp [waitUntilDeletedCond, h]
  · intro j hpre hj
    have hfalse : ∀ i, i < j → waitUntilDeletedCond get (0 + i) = (false, none) := by
      intro i hi
      rcases hpre i hi with ⟨obj, hobj⟩
      simp [waitUntilDeletedCond, hobj]
    have hskip := pollFrom_skip_false (waitUntilDeletedCond get)
      (fun i => (i + 1) * second) timeout j 0 (numTicks second timeout) hfalse
      (le_of_lt hj)
    obtain ⟨m, hm⟩ : ∃ m, numTicks second timeout - j = m + 1 :=
      ⟨numTicks second timeout - j - 1, by omega⟩
    constructor
    · intro e he
      have hc : waitUntilDeletedCond get j = (false, some e) := by
        simp [waitUntilDeletedCond, he]
      simp [BmhBuilder.WaitUntilDeleted, hvb, PollUntilContextTimeout, hskip, hm,
        pollFrom, hc, toWaitResult]
    · intro he
      have hc : waitUntilDeletedCond get j = (true, none) := by
        simp [waitUntilDeletedCond, he]
      simp [BmhBuilder.WaitUntilDeleted, hvb, PollUntilContextTimeout, hskip, hm,
        pollFrom, hc, toWaitResult]

/-- Witness for C2 at a concrete input: one fetch still sees the object,
the next fails with a non-not-found error, which the wait returns at once. -/
theorem waituntildeleted_fetch_classified_witness :
    BmhBuilder.WaitUntilDeleted bmhBuilderValid getFoundThenErr 5
      = ⟨some (BmhWaitErr.fetchFailed 7), (1 + 1) * second, 1 + 1⟩ :=
  ((waituntildeleted_fetch_classified bmhBuilderValid getFoundThenErr 5 rfl).2.2.2 1
    (fun i hi => ⟨bmhObjProvisioned, by
      have h0 : i = 0 := by omega
      subst h0
      rfl⟩)
    (by decide)).1 7 rfl

/-- C6: during a status wait a fetch error never terminates the wait: a
not-found or any other Get error makes the condition answer (false, nil)
exactly like a not-yet-matching status, the whole wait can only end in
success or in the deadline, and when every fetch fails it keeps polling
through every available check until the timeout. -/
theorem waituntilinstatus_fetch_errors_retry (builder : BmhBuilder) (get : Nat → GetResult)
    (status : String) (timeout : Nat) (hvalid : Validate (some builder) = none) :
    (∀ i, get i = GetResult.notFound → waitUntilInStatusCond get status i = (false, none)) ∧
    (∀ i e, get i = GetResult.otherErr e →
      waitUntilInStatusCond get status i = (false, none)) ∧
    ((builder.WaitUntilInStatus get status timeout).err = none ∨
      (builder.WaitUntilInStatus get status timeout).err = some BmhWaitErr.deadline) ∧
    ((∀ i, ∃ e, get i = GetResult.otherErr e) →
      builder.WaitUntilInStatus get status timeout
        = ⟨some BmhWaitErr.deadline, timeout, numTicks second timeout + 1⟩) := by
  have hvb := validate_of_valid builder hvalid
  have hnoerr : ∀ i, (waitUntilInStatusCond get status i).2 = none := by
    intro i
    rcases h : get i with obj | _ | e <;> simp [waitUntilInStatusCond, h]
  refine ⟨?_, ?_, ?_, ?_⟩
  · intro i h; simp [waitUntilInStatusCond, h]
  · intro i e h; simp [waitUntilInStatusCond, h]
  · have hw : builder.WaitUntilInStatus get status timeout
        = toWaitResult (pollFrom (waitUntilInStatusCond get status) (fun i => i * second)
            timeout 0 (numTicks second timeout + 1)) := by
      simp [BmhBuilder.WaitUntilInStatus, hvb, PollUntilContextTimeout]
    rw [hw, toWaitResult_err]
    rcases pollFrom_no_conderr (waitUntilInStatusCond get status) (fun i => i * second)
        timeout hnoerr (numTicks second timeout + 1) 0 with h | h
    · left; rw [h]; rfl
    · right; rw [h]; rfl
  · intro hall
    have hfalse : ∀ i, i < numTicks second timeout + 1 →
        waitUntilInStatusCond get status (0 + i) = (false, none) := by
      intro i hi
      rcases hall i with ⟨e, he⟩
      simp [waitUntilInStatusCond, he]
    have hrun := pollFrom_all_false (waitUntilInStatusCond get status) (fun i => i * second)
      timeout (numTicks second timeout + 1) 0 hfalse
    simp [BmhBuilder.WaitUntilInStatus, hvb, PollUntilContextTimeout, hrun, toWaitResult]

/-- Witness for C6 at a concrete input: every fetch fails with a
non-not-found error; the status wait silently retries until the deadline. -/
theorem waituntilinstatus_fetch_errors_retry_witness :
    BmhBuilder.WaitUntilInStatus bmhBuilderValid (fun _ => GetResult.otherErr 3) "ready" 3
      = ⟨some BmhWaitErr.deadline, 3, numTicks second 3 + 1⟩ :=
  (waituntilinstatus_fetch_errors_retry bmhBuilderValid (fun _ => GetResult.otherErr 3)
    "ready" 3 rfl).2.2.2 (fun _ => ⟨3, rfl⟩)

/-- C10: for every valid builder and non-empty vendor string,
WithRootDeviceVendor stores the vendor value into the definition's
RootDeviceHints.Model field, leaves the RootDeviceHints.Vendor field
unchanged (the zero value when the hints had to be initialized), and sets
no error on the builder. -/
theorem withrootdevicevendor_sets_model (builder : BmhBuilder) (defn : BareMetalHost)
    (vendor : String) (hvalid : Validate (some builder) = none)
    (hdef : builder.definition = some defn) (hv : vendor ≠ "") :
    ∃ hints : RootDeviceHints,
      (builder.WithRootDeviceVendor vendor).definition
          = some { defn with
              spec := { defn.spec with rootDeviceHints := some hints } } ∧
      hints.model = vendor ∧
      hints.vendor = (defn.spec.rootDeviceHints.getD emptyRootDeviceHints).vendor ∧
      (builder.WithRootDeviceVendor vendor).errorMsg = none := by
  have hvb := validate_of_valid builder hvalid
  have herr := errorMsg_of_valid builder hvalid
  have hw : builder.WithRootDeviceVendor vendor
      = { builder with
          definition := some { defn with
            spec := { defn.spec with
              rootDeviceHints := some { defn.spec.rootDeviceHints.getD emptyRootDeviceHints with
                model := vendor } } } } := by
    simp [BmhBuilder.WithRootDeviceVendor, hvb, hv, hdef]
  refine ⟨{ defn.spec.rootDeviceHints.getD emptyRootDeviceHints with model := vendor },
    ?_, rfl, rfl, ?_⟩
  · rw [hw]
  · rw [hw]
    exact herr

/-- Witness for C10 at a concrete input: a valid builder with nil hints and
the vendor string "Dell Inc.". -/
theorem withrootdevicevendor_sets_model_witness :
    ∃ hints : RootDeviceHints,
      (BmhBuilder.WithRootDeviceVendor bmhBuilderValid "Dell Inc.").definition
          = some { bmhObjProvisioned with
              spec := { bmhObjProvisioned.spec with rootDeviceHints := some hints } } ∧
      hints.model = "Dell Inc." ∧
      hints.vendor
          = (bmhObjProvisioned.spec.rootDeviceHints.getD emptyRootDeviceHints).vendor ∧
      (BmhBuilder.WithRootDeviceVendor bmhBuilderValid "Dell Inc.").errorMsg = none :=
  withrootdevicevendor_sets_model bmhBuilderValid bmhObjProvisioned "Dell Inc." rfl rfl
    (by decide)

end Goinfra
